import Mathlib

/-!
# Verification of the account-manager master-key subsystem

Shallow embedding of the extension's security core:

* `security-manager.js` (`SecurityManager`): PBKDF2 key derivation,
  AES-GCM encrypt/decrypt of secrets, master-password verification and
  the one-shot migration from the legacy plaintext scheme.
* `crypto-utils.js` (`CryptoUtils`): the legacy password-based codec,
  the `encryptPassword`/`decryptPassword` wrappers and the `isBase64`
  ciphertext classifier.
* `background.js`: the session authority (in-memory key, `chrome.alarms`
  timer, `chrome.storage.session` mirror) and the pre-migration backup.

Bytes are modelled as natural numbers below 256 (`allBytes`).  The Web
Crypto primitives (PBKDF2, AES-GCM) are platform black boxes, so they are
modelled symbolically: an idealized authenticated cipher whose ciphertext
is an injective byte encoding of `(key, iv, plaintext)` and whose
decryption authenticates the key/iv pair exactly, and an idealized
injective key-derivation function.  This idealization realises the
"negligible collision probability" assumption of the design: collisions
that are negligibly likely in the real primitives are impossible in the
model.  Everything surrounding the primitives — base64, UTF-8, blob
layout (`salt‖iv‖ciphertext`), truthiness checks, message handling,
storage updates — is translated directly from the JavaScript source.
-/

/-- A byte list: every entry is an 8-bit value.  `Uint8Array` contents. -/
def allBytes (l : List Nat) : Prop := ∀ b ∈ l, b < 256

instance : DecidablePred allBytes := fun l =>
  inferInstanceAs (Decidable (∀ b ∈ l, b < 256))

/-- Little-endian value of a digit list in base `b`. -/
def digitsVal (b : Nat) : List Nat → Nat
  | [] => 0
  | d :: rest => d + b * digitsVal b rest

/-- Base-`b` digits of `n`, least significant first, with explicit fuel. -/
def natDigitsAux (b : Nat) : Nat → Nat → List Nat
  | _, 0 => []
  | 0, _ + 1 => []
  | f + 1, n + 1 => ((n + 1) % b) :: natDigitsAux b f ((n + 1) / b)

/-- Base-`b` digits of `n`, least significant first (no trailing zeros). -/
def natDigits (b n : Nat) : List Nat := natDigitsAux b n n

theorem natDigitsAux_fuel (b : Nat) (hb : 2 ≤ b) :
    ∀ f g n : Nat, n ≤ f → n ≤ g → natDigitsAux b f n = natDigitsAux b g n := by
  intro f
  induction f with
  | zero =>
    intro g n hf _
    interval_cases n
    cases g <;> rfl
  | succ f ih =>
    intro g n hf hg
    match n, g with
    | 0, g => cases g <;> rfl
    | m + 1, g + 1 =>
      show ((m + 1) % b) :: natDigitsAux b f ((m + 1) / b) =
        ((m + 1) % b) :: natDigitsAux b g ((m + 1) / b)
      have hq : (m + 1) / b ≤ m := by
        have := Nat.div_lt_self (show 0 < m + 1 by omega) (show 1 < b by omega)
        omega
      rw [ih g ((m + 1) / b) (by omega) (by omega)]

theorem digitsVal_natDigitsAux (b : Nat) (hb : 2 ≤ b) :
    ∀ f n : Nat, n ≤ f → digitsVal b (natDigitsAux b f n) = n := by
  intro f
  induction f with
  | zero =>
    intro n hf
    interval_cases n
    rfl
  | succ f ih =>
    intro n hf
    match n with
    | 0 => rfl
    | m + 1 =>
      have hq : (m + 1) / b ≤ m := by
        have := Nat.div_lt_self (show 0 < m + 1 by omega) (show 1 < b by omega)
        omega
      show (m + 1) % b + b * digitsVal b (natDigitsAux b f ((m + 1) / b)) = m + 1
      rw [ih ((m + 1) / b) (by omega)]
      exact Nat.mod_add_div (m + 1) b

theorem digitsVal_natDigits (b : Nat) (hb : 2 ≤ b) (n : Nat) :
    digitsVal b (natDigits b n) = n :=
  digitsVal_natDigitsAux b hb n n (Nat.le_refl n)

theorem natDigitsAux_lt (b : Nat) (hb : 0 < b) :
    ∀ f n d : Nat, d ∈ natDigitsAux b f n → d < b := by
  intro f
  induction f with
  | zero =>
    intro n d hd
    cases n <;> simp [natDigitsAux] at hd
  | succ f ih =>
    intro n d hd
    match n with
    | 0 => simp [natDigitsAux] at hd
    | m + 1 =>
      simp only [natDigitsAux, List.mem_cons] at hd
      rcases hd with h | h
      · exact h ▸ Nat.mod_lt _ hb
      · exact ih _ _ h

theorem natDigits_lt (b : Nat) (hb : 0 < b) (n d : Nat)
    (hd : d ∈ natDigits b n) : d < b :=
  natDigitsAux_lt b hb n n d hd

theorem natDigitsAux_digitsVal (b : Nat) (hb : 2 ≤ b) :
    ∀ (l : List Nat) (f : Nat), (∀ d ∈ l, 1 ≤ d ∧ d < b) → digitsVal b l ≤ f →
      natDigitsAux b f (digitsVal b l) = l := by
  intro l
  induction l with
  | nil =>
    intro f _ _
    cases f <;> rfl
  | cons d rest ih =>
    intro f hd hf
    have hdig : 1 ≤ d ∧ d < b := hd d (List.mem_cons_self d rest)
    have hrest : ∀ x ∈ rest, 1 ≤ x ∧ x < b := fun x hx => hd x (List.mem_cons_of_mem d hx)
    have hv : digitsVal b (d :: rest) = d + b * digitsVal b rest := rfl
    have hble : 2 * digitsVal b rest ≤ b * digitsVal b rest := Nat.mul_le_mul_right _ hb
    obtain ⟨f', rfl⟩ : ∃ f', f = f' + 1 := ⟨f - 1, by omega⟩
    obtain ⟨m, hm⟩ : ∃ m, digitsVal b (d :: rest) = m + 1 :=
      ⟨digitsVal b (d :: rest) - 1, by omega⟩
    have hmod : (d + b * digitsVal b rest) % b = d := by
      rw [Nat.add_mul_mod_self_left]
      exact Nat.mod_eq_of_lt hdig.2
    have hdiv : (d + b * digitsVal b rest) / b = digitsVal b rest := by
      rw [Nat.add_mul_div_left _ _ (show 0 < b by omega), Nat.div_eq_of_lt hdig.2]
      exact Nat.zero_add _
    rw [hm]
    show ((m + 1) % b) :: natDigitsAux b f' ((m + 1) / b) = d :: rest
    rw [← hm, hv, hmod, hdiv, ih f' hrest (by omega)]

theorem natDigits_digitsVal (b : Nat) (hb : 2 ≤ b) (l : List Nat)
    (hd : ∀ d ∈ l, 1 ≤ d ∧ d < b) :
    natDigits b (digitsVal b l) = l :=
  natDigitsAux_digitsVal b hb l (digitsVal b l) hd (Nat.le_refl _)

theorem digitsVal_append (b : Nat) (l1 l2 : List Nat) :
    digitsVal b (l1 ++ l2) = digitsVal b l1 + b ^ l1.length * digitsVal b l2 := by
  induction l1 with
  | nil => simp [digitsVal]
  | cons d rest ih =>
    show d + b * digitsVal b (rest ++ l2) =
      d + b * digitsVal b rest + b ^ (rest.length + 1) * digitsVal b l2
    rw [ih]
    ring

theorem digitsVal_replicate_zero (b k : Nat) :
    digitsVal b (List.replicate k 0) = 0 := by
  induction k with
  | zero => rfl
  | succ k ih => simp [List.replicate_succ, digitsVal, ih]

/-! ## Idealized AES-GCM (model of `crypto.subtle.encrypt`/`decrypt`)

The ciphertext is a byte rendering of an injective code of
`(key, iv, plaintext)`, padded to the real output size
(`plaintext length + 16` for the 16-byte authentication tag).
Decryption re-parses the code and authenticates the key/iv pair:
it succeeds exactly for the pair that produced the blob. -/

/-- Each byte as a nonzero base-258 digit (`b + 1 ∈ [1, 256]`). -/
def byteDigits (l : List Nat) : List Nat := l.map (fun x => x % 256 + 1)

/-- Injective numeric code of a `(key, iv, data)` triple of byte lists:
the three digit streams joined by the separator digit `257`, read in
base 258. -/
def codeTriple (key iv data : List Nat) : Nat :=
  digitsVal 258 (byteDigits key ++ 257 :: (byteDigits iv ++ 257 :: byteDigits data))

/-- Idealized AES-GCM encryption: the code of the triple, rendered as
bytes and zero-padded to the real AES-GCM output length. -/
def aesGcmEncrypt (key iv data : List Nat) : List Nat :=
  natDigits 256 (codeTriple key iv data) ++
    List.replicate (data.length + 16 - (natDigits 256 (codeTriple key iv data)).length) 0

/-- Split a digit stream at the first separator digit `257`. -/
def splitSep : List Nat → List Nat × List Nat
  | [] => ([], [])
  | x :: rest =>
    if x = 257 then ([], rest)
    else (x :: (splitSep rest).1, (splitSep rest).2)

/-- Idealized AES-GCM decryption: re-read the code, check that the key
and iv digit streams match the supplied pair (authentication), and
return the data bytes. -/
def aesGcmDecrypt (key iv ct : List Nat) : Option (List Nat) :=
  if (splitSep (natDigits 258 (digitsVal 256 ct))).1 = byteDigits key ∧
      (splitSep (splitSep (natDigits 258 (digitsVal 256 ct))).2).1 = byteDigits iv then
    some ((splitSep (splitSep (natDigits 258 (digitsVal 256 ct))).2).2.map (fun x => x - 1))
  else none

theorem byteDigits_mem (l : List Nat) (d : Nat) (hd : d ∈ byteDigits l) :
    1 ≤ d ∧ d ≤ 256 := by
  simp only [byteDigits, List.mem_map] at hd
  obtain ⟨x, _, rfl⟩ := hd
  have := Nat.mod_lt x (show 0 < 256 by omega)
  omega

theorem sep_not_mem_byteDigits (l : List Nat) : 257 ∉ byteDigits l := by
  intro h
  have := byteDigits_mem l 257 h
  omega

theorem byteDigits_undo (l : List Nat) (hl : allBytes l) :
    (byteDigits l).map (fun x => x - 1) = l := by
  induction l with
  | nil => rfl
  | cons x rest ih =>
    have hx : x < 256 := hl x (List.mem_cons_self x rest)
    have hrest : allBytes rest := fun b hb => hl b (List.mem_cons_of_mem x hb)
    show (x % 256 + 1 - 1) :: (byteDigits rest).map (fun x => x - 1) = x :: rest
    rw [ih hrest]
    congr 1
    omega

theorem byteDigits_inj (l1 l2 : List Nat) (h1 : allBytes l1) (h2 : allBytes l2)
    (he : byteDigits l1 = byteDigits l2) : l1 = l2 := by
  have := congrArg (List.map (fun x => x - 1)) he
  rwa [byteDigits_undo l1 h1, byteDigits_undo l2 h2] at this

theorem splitSep_append (l1 l2 : List Nat) (h : 257 ∉ l1) :
    splitSep (l1 ++ 257 :: l2) = (l1, l2) := by
  induction l1 with
  | nil => simp [splitSep]
  | cons x rest ih =>
    have hx : ¬ x = 257 := fun hc => h (hc ▸ List.mem_cons_self x rest)
    have hrest : 257 ∉ rest := fun hc => h (List.mem_cons_of_mem x hc)
    show splitSep (x :: (rest ++ 257 :: l2)) = (x :: rest, l2)
    simp only [splitSep, if_neg hx, ih hrest]

theorem codeTriple_digits (key iv data : List Nat) :
    natDigits 258 (codeTriple key iv data) =
      byteDigits key ++ 257 :: (byteDigits iv ++ 257 :: byteDigits data) := by
  apply natDigits_digitsVal 258 (by omega)
  intro d hd
  rcases List.mem_append.mp hd with h | h
  · have := byteDigits_mem _ _ h; omega
  · rcases List.mem_cons.mp h with h | h
    · omega
    · rcases List.mem_append.mp h with h | h
      · have := byteDigits_mem _ _ h; omega
      · rcases List.mem_cons.mp h with h | h
        · omega
        · have := byteDigits_mem _ _ h; omega

theorem gcm_ct_allBytes (key iv data : List Nat) :
    allBytes (aesGcmEncrypt key iv data) := by
  intro b hb
  simp only [aesGcmEncrypt, List.mem_append] at hb
  rcases hb with h | h
  · exact natDigits_lt 256 (by omega) _ b h
  · rw [List.eq_of_mem_replicate h]
    omega

theorem gcm_ct_len (key iv data : List Nat) :
    16 ≤ (aesGcmEncrypt key iv data).length := by
  simp only [aesGcmEncrypt, List.length_append, List.length_replicate]
  omega

theorem gcm_ct_val (key iv data : List Nat) :
    digitsVal 256 (aesGcmEncrypt key iv data) = codeTriple key iv data := by
  simp only [aesGcmEncrypt, digitsVal_append, digitsVal_replicate_zero, Nat.mul_zero,
    Nat.add_zero]
  exact digitsVal_natDigits 256 (by omega) _

theorem gcm_decrypt_encrypt (key iv data : List Nat) (hd : allBytes data) :
    aesGcmDecrypt key iv (aesGcmEncrypt key iv data) = some data := by
  have hsplit1 := splitSep_append (byteDigits key) (byteDigits iv ++ 257 :: byteDigits data)
    (sep_not_mem_byteDigits key)
  have hsplit2 := splitSep_append (byteDigits iv) (byteDigits data)
    (sep_not_mem_byteDigits iv)
  simp only [aesGcmDecrypt, gcm_ct_val, codeTriple_digits, hsplit1, hsplit2,
    eq_self_iff_true, and_self, if_true]
  rw [byteDigits_undo data hd]

theorem gcm_decrypt_wrong_key (k1 k2 iv data : List Nat) (h1 : allBytes k1)
    (h2 : allBytes k2) (hne : k1 ≠ k2) :
    aesGcmDecrypt k2 iv (aesGcmEncrypt k1 iv data) = none := by
  have hsplit1 := splitSep_append (byteDigits k1) (byteDigits iv ++ 257 :: byteDigits data)
    (sep_not_mem_byteDigits k1)
  have hsplit2 := splitSep_append (byteDigits iv) (byteDigits data)
    (sep_not_mem_byteDigits iv)
  simp only [aesGcmDecrypt, gcm_ct_val, codeTriple_digits, hsplit1, hsplit2]
  rw [if_neg]
  intro hc
  exact hne (byteDigits_inj k1 k2 h1 h2 hc.1)

/-! ## Base64 (model of `btoa` / `atob` and the strict `isBase64` regex)

`arrayBufferToBase64` maps each byte to a char and calls `btoa`;
`base64ToArrayBuffer` calls `atob` and reads the char codes back.  The
model implements standard base64 over byte lists directly.  `atob`
follows the forgiving-base64 rules on whitespace-free input: up to two
trailing `=` on a 4-aligned tail, rejecting everything else. -/

/-- The base64 alphabet in index order. -/
def b64Alpha : List Char :=
  "ABCDEFGHIJKLMNOPQRSTUVWXYZabcdefghijklmnopqrstuvwxyz0123456789+/".data

/-- Character for a 6-bit group. -/
def b64Char (v : Nat) : Char := b64Alpha.getD v 'A'

/-- Index of a base64 character, `none` for anything else (incl. `=`). -/
def b64CharVal (c : Char) : Option Nat := b64Alpha.findIdx? (fun a => a == c)

/-- `btoa` on a byte list: 3-byte groups to 4 chars, padded with `=`. -/
def btoaAux : List Nat → List Char
  | [] => []
  | [b1] => [b64Char (b1 / 4), b64Char (b1 % 4 * 16), '=', '=']
  | [b1, b2] =>
    [b64Char (b1 / 4), b64Char (b1 % 4 * 16 + b2 / 16), b64Char (b2 % 16 * 4), '=']
  | b1 :: b2 :: b3 :: rest =>
    b64Char (b1 / 4) :: b64Char (b1 % 4 * 16 + b2 / 16) ::
      b64Char (b2 % 16 * 4 + b3 / 64) :: b64Char (b3 % 64) :: btoaAux rest

/-- Decode a final 2-char group (one byte). -/
def decode2 (c1 c2 : Char) : Option (List Nat) :=
  match b64CharVal c1, b64CharVal c2 with
  | some v1, some v2 => some [v1 * 4 + v2 / 16]
  | _, _ => none

/-- Decode a final 3-char group (two bytes). -/
def decode3 (c1 c2 c3 : Char) : Option (List Nat) :=
  match b64CharVal c1, b64CharVal c2, b64CharVal c3 with
  | some v1, some v2, some v3 => some [v1 * 4 + v2 / 16, v2 % 16 * 16 + v3 / 4]
  | _, _, _ => none

/-- Decode a full 4-char group (three bytes). -/
def atobQuad (c1 c2 c3 c4 : Char) : Option (List Nat) :=
  match b64CharVal c1, b64CharVal c2, b64CharVal c3, b64CharVal c4 with
  | some v1, some v2, some v3, some v4 =>
    some [v1 * 4 + v2 / 16, v2 % 16 * 16 + v3 / 4, v3 % 4 * 64 + v4]
  | _, _, _, _ => none

/-- `atob` on a char list: fails (JS: throws) on length `≡ 1 mod 4`, on
characters outside the alphabet, and on misplaced padding. -/
def atobAux : List Char → Option (List Nat)
  | [] => some []
  | [c1, c2] => decode2 c1 c2
  | [c1, c2, c3] => decode3 c1 c2 c3
  | [c1, c2, c3, c4] =>
    if c3 = '=' ∧ c4 = '=' then decode2 c1 c2
    else if c4 = '=' then decode3 c1 c2 c3
    else atobQuad c1 c2 c3 c4
  | c1 :: c2 :: c3 :: c4 :: c5 :: rest =>
    match atobQuad c1 c2 c3 c4, atobAux (c5 :: rest) with
    | some bs, some bs2 => some (bs ++ bs2)
    | _, _ => none
  | _ => none

theorem b64CharVal_b64Char : ∀ v : Nat, v < 64 → b64CharVal (b64Char v) = some v := by
  decide

theorem b64Char_ne_pad : ∀ v : Nat, v < 64 → b64Char v ≠ '=' := by
  decide

/-- Induction on byte lists in the 3-byte groups used by base64. -/
theorem threeChunkInduction (P : List Nat → Prop) (h0 : P []) (h1 : ∀ a, P [a])
    (h2 : ∀ a b, P [a, b]) (h3 : ∀ a b c rest, P rest → P (a :: b :: c :: rest)) :
    ∀ l, P l
  | [] => h0
  | [a] => h1 a
  | [a, b] => h2 a b
  | a :: b :: c :: rest => h3 a b c rest (threeChunkInduction P h0 h1 h2 h3 rest)

theorem btoaAux_ne_nil (l : List Nat) (h : l ≠ []) : btoaAux l ≠ [] := by
  match l with
  | [a] => simp [btoaAux]
  | [a, b] => simp [btoaAux]
  | a :: b :: c :: rest => simp [btoaAux]

theorem atobQuad_bytes (b1 b2 b3 : Nat) (h1 : b1 < 256) (h2 : b2 < 256) (h3 : b3 < 256) :
    atobQuad (b64Char (b1 / 4)) (b64Char (b1 % 4 * 16 + b2 / 16))
      (b64Char (b2 % 16 * 4 + b3 / 64)) (b64Char (b3 % 64)) = some [b1, b2, b3] := by
  rw [atobQuad, b64CharVal_b64Char _ (by omega), b64CharVal_b64Char _ (by omega),
    b64CharVal_b64Char _ (by omega), b64CharVal_b64Char _ (by omega)]
  show some [_, _, _] = some [b1, b2, b3]
  have e1 : b1 / 4 * 4 + (b1 % 4 * 16 + b2 / 16) / 16 = b1 := by omega
  have e2 : (b1 % 4 * 16 + b2 / 16) % 16 * 16 + (b2 % 16 * 4 + b3 / 64) / 4 = b2 := by omega
  have e3 : (b2 % 16 * 4 + b3 / 64) % 4 * 64 + b3 % 64 = b3 := by omega
  rw [e1, e2, e3]

theorem atob_btoa (l : List Nat) (hl : allBytes l) : atobAux (btoaAux l) = some l := by
  induction l using threeChunkInduction with
  | h0 => rfl
  | h1 a =>
    have ha : a < 256 := hl a (List.mem_cons_self a [])
    show atobAux [b64Char (a / 4), b64Char (a % 4 * 16), '=', '='] = some [a]
    rw [atobAux, if_pos ⟨rfl, rfl⟩, decode2,
      b64CharVal_b64Char _ (by omega), b64CharVal_b64Char _ (by omega)]
    show some [_] = some [a]
    congr 2
    omega
  | h2 a b =>
    have ha : a < 256 := hl a (by simp)
    have hb : b < 256 := hl b (by simp)
    show atobAux [b64Char (a / 4), b64Char (a % 4 * 16 + b / 16),
      b64Char (b % 16 * 4), '='] = some [a, b]
    rw [atobAux, if_neg (fun hc => b64Char_ne_pad _ (by omega) hc.1), if_pos rfl, decode3,
      b64CharVal_b64Char _ (by omega), b64CharVal_b64Char _ (by omega),
      b64CharVal_b64Char _ (by omega)]
    show some [_, _] = some [a, b]
    have e1 : a / 4 * 4 + (a % 4 * 16 + b / 16) / 16 = a := by omega
    have e2 : (a % 4 * 16 + b / 16) % 16 * 16 + (b % 16 * 4) / 4 = b := by omega
    rw [e1, e2]
  | h3 a b c rest ih =>
    have ha : a < 256 := hl a (by simp)
    have hb : b < 256 := hl b (by simp)
    have hc : c < 256 := hl c (by simp)
    have hrest : allBytes rest := fun x hx => hl x (by simp [hx])
    have hquad := atobQuad_bytes a b c ha hb hc
    show atobAux (b64Char (a / 4) :: b64Char (a % 4 * 16 + b / 16) ::
      b64Char (b % 16 * 4 + c / 64) :: b64Char (c % 64) :: btoaAux rest) = some ([a, b, c] ++ rest)
    by_cases hnil : rest = []
    · subst hnil
      show atobAux [b64Char (a / 4), b64Char (a % 4 * 16 + b / 16),
        b64Char (b % 16 * 4 + c / 64), b64Char (c % 64)] = some ([a, b, c] ++ [])
      rw [atobAux, if_neg (fun h => b64Char_ne_pad _ (by omega) h.2),
        if_neg (b64Char_ne_pad _ (by omega)), hquad]
      simp
    · obtain ⟨c5, rest5, h5⟩ : ∃ c5 rest5, btoaAux rest = c5 :: rest5 := by
        match h : btoaAux rest with
        | [] => exact absurd h (btoaAux_ne_nil rest hnil)
        | c5 :: rest5 => exact ⟨c5, rest5, rfl⟩
      rw [h5]
      show atobAux (_ :: _ :: _ :: _ :: c5 :: rest5) = some ([a, b, c] ++ rest)
      rw [atobAux, ← h5, ih hrest, hquad]

/-- The character class of the strict regex `[A-Za-z0-9+/]`. -/
def isB64Char (c : Char) : Bool :=
  ('A' ≤ c && c ≤ 'Z') || ('a' ≤ c && c ≤ 'z') || ('0' ≤ c && c ≤ '9') ||
    c == '+' || c == '/'

/-- Number of trailing `=` characters. -/
def trailingEqCount (s : List Char) : Nat :=
  (s.reverse.takeWhile (fun c => c == '=')).length

/-- The regex `^[A-Za-z0-9+/]+={0,2}$`: a nonempty run of alphabet
characters followed by at most two `=`. -/
def regexB64 (s : List Char) : Bool :=
  decide (trailingEqCount s ≤ 2) && decide (1 ≤ s.length - trailingEqCount s) &&
    (s.take (s.length - trailingEqCount s)).all isB64Char

theorem isB64Char_b64Char : ∀ v : Nat, v < 64 → isB64Char (b64Char v) = true := by
  decide

theorem isB64Char_ne_pad (c : Char) (h : isB64Char c = true) : (c == '=') = false := by
  cases hbe : c == '=' with
  | false => rfl
  | true =>
    have : c = '=' := by exact eq_of_beq hbe
    subst this
    exact absurd h (by decide)

theorem takeWhile_replicate_append (p : Char → Bool) (a : Char) (t : Nat)
    (xs : List Char) (h : p a = true) :
    (List.replicate t a ++ xs).takeWhile p = List.replicate t a ++ xs.takeWhile p := by
  induction t with
  | zero => rfl
  | succ t ih =>
    simp [List.replicate_succ, List.takeWhile_cons, h, ih]

theorem takeWhile_eq_nil_of_none (p : Char → Bool) (l : List Char)
    (h : ∀ c ∈ l, p c = false) : l.takeWhile p = [] := by
  cases l with
  | nil => rfl
  | cons c rest =>
    simp [List.takeWhile_cons, h c (List.mem_cons_self c rest)]

theorem trailingEqCount_shape (body : List Char) (t : Nat)
    (hb : body.all isB64Char = true) :
    trailingEqCount (body ++ List.replicate t '=') = t := by
  unfold trailingEqCount
  rw [List.reverse_append, List.reverse_replicate]
  rw [takeWhile_replicate_append _ _ _ _ (by rfl)]
  rw [takeWhile_eq_nil_of_none]
  · simp
  · intro c hc
    exact isB64Char_ne_pad c (by
      have := List.all_eq_true.mp hb c (List.mem_reverse.mp hc)
      exact this)

theorem regexB64_shape (body : List Char) (t : Nat) (hb : body.all isB64Char = true)
    (ht : t ≤ 2) (hlen : 1 ≤ body.length) :
    regexB64 (body ++ List.replicate t '=') = true := by
  have hcount := trailingEqCount_shape body t hb
  have hslen : (body ++ List.replicate t '=').length = body.length + t := by
    simp
  unfold regexB64
  rw [hcount, hslen]
  have hsub : body.length + t - t = body.length := by omega
  rw [hsub, List.take_left]
  simp [hb, hlen, ht]

theorem btoaAux_shape (l : List Nat) (hl : allBytes l) (hne : l ≠ []) :
    ∃ body t, btoaAux l = body ++ List.replicate t '=' ∧ body.all isB64Char = true ∧
      t ≤ 2 ∧ 1 ≤ body.length := by
  induction l using threeChunkInduction with
  | h0 => exact absurd rfl hne
  | h1 a =>
    have ha : a < 256 := hl a (by simp)
    exact ⟨[b64Char (a / 4), b64Char (a % 4 * 16)], 2, rfl, by
      simp [isB64Char_b64Char _ (show a / 4 < 64 by omega),
        isB64Char_b64Char _ (show a % 4 * 16 < 64 by omega)], by omega, by simp⟩
  | h2 a b =>
    have ha : a < 256 := hl a (by simp)
    have hb : b < 256 := hl b (by simp)
    exact ⟨[b64Char (a / 4), b64Char (a % 4 * 16 + b / 16), b64Char (b % 16 * 4)], 1, rfl, by
      simp [isB64Char_b64Char _ (show a / 4 < 64 by omega),
        isB64Char_b64Char _ (show a % 4 * 16 + b / 16 < 64 by omega),
        isB64Char_b64Char _ (show b % 16 * 4 < 64 by omega)], by omega, by simp⟩
  | h3 a b c rest ih =>
    have ha : a < 256 := hl a (by simp)
    have hb : b < 256 := hl b (by simp)
    have hc : c < 256 := hl c (by simp)
    have hrest : allBytes rest := fun x hx => hl x (by simp [hx])
    have hhead : [b64Char (a / 4), b64Char (a % 4 * 16 + b / 16),
        b64Char (b % 16 * 4 + c / 64), b64Char (c % 64)].all isB64Char = true := by
      simp [isB64Char_b64Char _ (show a / 4 < 64 by omega),
        isB64Char_b64Char _ (show a % 4 * 16 + b / 16 < 64 by omega),
        isB64Char_b64Char _ (show b % 16 * 4 + c / 64 < 64 by omega),
        isB64Char_b64Char _ (show c % 64 < 64 by omega)]
    by_cases hnil : rest = []
    · subst hnil
      exact ⟨[b64Char (a / 4), b64Char (a % 4 * 16 + b / 16),
        b64Char (b % 16 * 4 + c / 64), b64Char (c % 64)], 0, by simp [btoaAux],
        hhead, by omega, by simp⟩
    · obtain ⟨body, t, heq, hball, ht, hblen⟩ := ih hrest hnil
      refine ⟨b64Char (a / 4) :: b64Char (a % 4 * 16 + b / 16) ::
        b64Char (b % 16 * 4 + c / 64) :: b64Char (c % 64) :: body, t, ?_, ?_, ht, by simp⟩
      · show btoaAux (a :: b :: c :: rest) = _
        rw [btoaAux, heq]
        simp
      · simp only [List.all_cons, Bool.and_eq_true] at hhead ⊢
        exact ⟨hhead.1, hhead.2.1, hhead.2.2.1, hhead.2.2.2.1, hball⟩

theorem regexB64_btoa (l : List Nat) (hl : allBytes l) (hne : l ≠ []) :
    regexB64 (btoaAux l) = true := by
  obtain ⟨body, t, heq, hball, ht, hblen⟩ := btoaAux_shape l hl hne
  rw [heq]
  exact regexB64_shape body t hball ht hblen

theorem btoaAux_len_mod4 (l : List Nat) : (btoaAux l).length % 4 = 0 := by
  induction l using threeChunkInduction with
  | h0 => rfl
  | h1 a => simp [btoaAux]
  | h2 a b => simp [btoaAux]
  | h3 a b c rest ih =>
    show (b64Char (a / 4) :: b64Char (a % 4 * 16 + b / 16) ::
      b64Char (b % 16 * 4 + c / 64) :: b64Char (c % 64) :: btoaAux rest).length % 4 = 0
    simp only [List.length_cons]
    omega

/-! ## UTF-8 (model of `TextEncoder` / `TextDecoder`) -/

/-- UTF-8 bytes of one code point. -/
def utf8Encode (c : Nat) : List Nat :=
  if c < 128 then [c]
  else if c < 2048 then [192 + c / 64, 128 + c % 64]
  else if c < 65536 then [224 + c / 4096, 128 + c / 64 % 64, 128 + c % 64]
  else [240 + c / 262144, 128 + c / 4096 % 64, 128 + c / 64 % 64, 128 + c % 64]

/-- `TextEncoder().encode`: UTF-8 bytes of a string. -/
def strBytes (s : String) : List Nat := s.data.flatMap (fun c => utf8Encode c.toNat)

/-- UTF-8 decoder with fuel (structural recursion over the fuel). -/
def utf8DecAux : Nat → List Nat → Option (List Char)
  | _, [] => some []
  | 0, _ :: _ => none
  | f + 1, b :: rest =>
    if b < 128 then (utf8DecAux f rest).map (fun cs => Char.ofNat b :: cs)
    else if b < 224 then
      match rest with
      | b2 :: rest2 =>
        (utf8DecAux f rest2).map (fun cs => Char.ofNat ((b - 192) * 64 + (b2 - 128)) :: cs)
      | [] => none
    else if b < 240 then
      match rest with
      | b2 :: b3 :: rest3 =>
        (utf8DecAux f rest3).map
          (fun cs => Char.ofNat ((b - 224) * 4096 + (b2 - 128) * 64 + (b3 - 128)) :: cs)
      | _ => none
    else
      match rest with
      | b2 :: b3 :: b4 :: rest4 =>
        (utf8DecAux f rest4).map
          (fun cs => Char.ofNat ((b - 240) * 262144 + (b2 - 128) * 4096 +
            (b3 - 128) * 64 + (b4 - 128)) :: cs)
      | _ => none

/-- `TextDecoder().decode` restricted to well-formed UTF-8 input. -/
def utf8Dec (l : List Nat) : Option (List Char) := utf8DecAux l.length l

/-- Decode UTF-8 bytes back to a string. -/
def utf8DecodeStr (l : List Nat) : Option String :=
  (utf8Dec l).map (fun cs => String.mk cs)

theorem char_toNat_lt (c : Char) : c.toNat < 1114112 := by
  rcases c.valid with h | h
  · have h1 : c.val.toNat < 55296 := h
    have : c.toNat = c.val.toNat := rfl
    omega
  · exact h.2

theorem utf8Encode_allBytes (c : Char) : ∀ x ∈ utf8Encode c.toNat, x < 256 := by
  have hlt := char_toNat_lt c
  intro x hx
  unfold utf8Encode at hx
  split at hx
  · simp only [List.mem_singleton] at hx
    omega
  · split at hx
    · simp only [List.mem_cons, List.mem_singleton] at hx
      rcases hx with rfl | rfl | h
      · omega
      · omega
      · simp at h
    · split at hx
      · simp only [List.mem_cons, List.mem_singleton] at hx
        rcases hx with rfl | rfl | rfl | h
        · omega
        · omega
        · omega
        · simp at h
      · simp only [List.mem_cons, List.mem_singleton] at hx
        rcases hx with rfl | rfl | rfl | rfl | h
        · omega
        · omega
        · omega
        · omega
        · simp at h

theorem strBytes_allBytes (s : String) : allBytes (strBytes s) := by
  intro b hb
  simp only [strBytes, List.mem_flatMap] at hb
  obtain ⟨c, _, hc⟩ := hb
  exact utf8Encode_allBytes c b hc

theorem utf8DecAux_nil (f : Nat) : utf8DecAux f [] = some [] := by
  cases f <;> rfl

theorem utf8DecAux_encode (c : Char) (f : Nat) (rest : List Nat) :
    utf8DecAux (f + 1) (utf8Encode c.toNat ++ rest) =
      (utf8DecAux f rest).map (fun cs => c :: cs) := by
  have hlt := char_toNat_lt c
  by_cases h1 : c.toNat < 128
  · rw [utf8Encode, if_pos h1]
    show utf8DecAux (f + 1) (c.toNat :: rest) = _
    simp only [utf8DecAux, if_pos h1, Char.ofNat_toNat]
  · by_cases h2 : c.toNat < 2048
    · rw [utf8Encode, if_neg h1, if_pos h2]
      show utf8DecAux (f + 1) ((192 + c.toNat / 64) :: (128 + c.toNat % 64) :: rest) = _
      have hv : (192 + c.toNat / 64 - 192) * 64 + (128 + c.toNat % 64 - 128) = c.toNat := by
        omega
      simp only [utf8DecAux, if_neg (show ¬ 192 + c.toNat / 64 < 128 by omega),
        if_pos (show 192 + c.toNat / 64 < 224 by omega)]
      rw [hv, Char.ofNat_toNat]
    · by_cases h3 : c.toNat < 65536
      · rw [utf8Encode, if_neg h1, if_neg h2, if_pos h3]
        show utf8DecAux (f + 1) ((224 + c.toNat / 4096) :: (128 + c.toNat / 64 % 64) ::
          (128 + c.toNat % 64) :: rest) = _
        have hv : (224 + c.toNat / 4096 - 224) * 4096 +
            (128 + c.toNat / 64 % 64 - 128) * 64 + (128 + c.toNat % 64 - 128) = c.toNat := by
          omega
        simp only [utf8DecAux, if_neg (show ¬ 224 + c.toNat / 4096 < 128 by omega),
          if_neg (show ¬ 224 + c.toNat / 4096 < 224 by omega),
          if_pos (show 224 + c.toNat / 4096 < 240 by omega)]
        rw [hv, Char.ofNat_toNat]
      · rw [utf8Encode, if_neg h1, if_neg h2, if_neg h3]
        show utf8DecAux (f + 1) ((240 + c.toNat / 262144) :: (128 + c.toNat / 4096 % 64) ::
          (128 + c.toNat / 64 % 64) :: (128 + c.toNat % 64) :: rest) = _
        have hv : (240 + c.toNat / 262144 - 240) * 262144 +
            (128 + c.toNat / 4096 % 64 - 128) * 4096 +
            (128 + c.toNat / 64 % 64 - 128) * 64 + (128 + c.toNat % 64 - 128) = c.toNat := by
          omega
        simp only [utf8DecAux, if_neg (show ¬ 240 + c.toNat / 262144 < 128 by omega),
          if_neg (show ¬ 240 + c.toNat / 262144 < 224 by omega),
          if_neg (show ¬ 240 + c.toNat / 262144 < 240 by omega)]
        rw [hv, Char.ofNat_toNat]

theorem utf8Encode_len_pos (c : Char) : 1 ≤ (utf8Encode c.toNat).length := by
  unfold utf8Encode
  split
  · simp
  · split
    · simp
    · split <;> simp

theorem utf8DecAux_flat (cs : List Char) :
    ∀ f : Nat, (cs.flatMap (fun c => utf8Encode c.toNat)).length ≤ f →
      utf8DecAux f (cs.flatMap (fun c => utf8Encode c.toNat)) = some cs := by
  induction cs with
  | nil =>
    intro f _
    exact utf8DecAux_nil f
  | cons c rest ih =>
    intro f hf
    have hone := utf8Encode_len_pos c
    have hflat : (c :: rest).flatMap (fun c => utf8Encode c.toNat) =
      utf8Encode c.toNat ++ rest.flatMap (fun c => utf8Encode c.toNat) := by
      simp
    rw [hflat] at hf ⊢
    have hlen : (utf8Encode c.toNat ++ rest.flatMap (fun c => utf8Encode c.toNat)).length =
      (utf8Encode c.toNat).length + (rest.flatMap (fun c => utf8Encode c.toNat)).length := by
      simp
    obtain ⟨f', rfl⟩ : ∃ f', f = f' + 1 := ⟨f - 1, by omega⟩
    rw [utf8DecAux_encode c f', ih f' (by omega)]
    rfl

theorem utf8Dec_strBytes (s : String) : utf8Dec (strBytes s) = some s.data :=
  utf8DecAux_flat s.data (strBytes s).length (Nat.le_refl _)

theorem utf8DecodeStr_strBytes (s : String) : utf8DecodeStr (strBytes s) = some s := by
  rw [utf8DecodeStr, utf8Dec_strBytes]
  rfl

/-! ## Idealized PBKDF2 and the two codec classes

`SecurityManager` (security-manager.js) and `CryptoUtils`
(crypto-utils.js) wrap the same Web Crypto primitives with different
blob layouts: `iv ‖ ciphertext` with a caller-supplied `CryptoKey`
versus `salt ‖ iv ‖ ciphertext` with a password-derived key. -/

/-- Idealized injective model of PBKDF2-SHA256
(`crypto.subtle.importKey` + `deriveKey`): the raw key bytes are an
injective function of (password bytes, salt, iteration count). -/
def pbkdf2 (pw salt : List Nat) (iterations : Nat) : List Nat :=
  natDigits 256 (codeTriple pw salt (natDigits 256 iterations))

theorem pbkdf2_allBytes (pw salt : List Nat) (iterations : Nat) :
    allBytes (pbkdf2 pw salt iterations) :=
  fun b hb => natDigits_lt 256 (by omega) _ b hb

/-- `SecurityManager.VERIFICATION_TEXT`. -/
def SecurityManager.VERIFICATION_TEXT : String := "account-manager-security-v2"

/-- `SecurityManager.PBKDF2_ITERATIONS` (the comment records it was
raised to 120000 from 100000). -/
def SecurityManager.PBKDF2_ITERATIONS : Nat := 120000

/-- `SecurityManager.deriveKey(password, salt)`: PBKDF2 over the UTF-8
bytes of the password with the hard-coded `this.PBKDF2_ITERATIONS`
(the iteration count is not a parameter of this function). -/
def SecurityManager.deriveKey (password : String) (salt : List Nat) : List Nat :=
  pbkdf2 (strBytes password) salt SecurityManager.PBKDF2_ITERATIONS

/-- `SecurityManager.encrypt(plaintext, key)`: a fresh random 12-byte
`iv` (made explicit as an argument), AES-GCM, `iv ‖ ciphertext`,
base64-encoded. -/
def SecurityManager.encrypt (plaintext : String) (key : List Nat) (iv : List Nat) : String :=
  String.mk (btoaAux (iv ++ aesGcmEncrypt key iv (strBytes plaintext)))

/-- `SecurityManager.decrypt(ciphertext, key)`: base64-decode,
`iv = data.slice(0, 12)`, decrypt `data.slice(12)`.  `none` models a
thrown exception (bad base64 or failed authentication). -/
def SecurityManager.decrypt (ciphertext : String) (key : List Nat) : Option String :=
  match atobAux ciphertext.data with
  | none => none
  | some data =>
    match aesGcmDecrypt key (data.take 12) (data.drop 12) with
    | none => none
    | some pt => utf8DecodeStr pt

/-- `validatePasswordStrength`: nonempty, length ≥ 8, at least one of
`[A-Z]`, `[a-z]`, `[0-9]`.  `true` models `{valid: true}`. -/
def SecurityManager.validatePasswordStrength (password : String) : Bool :=
  !(password == "") && decide (8 ≤ password.length) &&
    password.data.any (fun c => 'A' ≤ c && c ≤ 'Z') &&
    password.data.any (fun c => 'a' ≤ c && c ≤ 'z') &&
    password.data.any (fun c => '0' ≤ c && c ≤ '9')

/-- The persisted `securityConfig` record. -/
structure SecurityConfig where
  version : String
  salt : String
  iterations : Nat
  verificationData : String
  createdAt : Int
deriving DecidableEq

/-- Outcome of `verifyMasterPassword`, separated by the distinct
`message` strings the source returns: success, `未找到安全配置…`
(`NotInitialized`), `主密码错误` (`WrongPassword`), and the generic
`验证失败：…` produced by the outer `catch`. -/
inductive VerifyResult where
  | ok (key : List Nat)
  | noConfig
  | wrongPassword
  | verifyError
deriving DecidableEq

/-- `verifyMasterPassword(inputPassword)` with the stored
`securityConfig` passed explicitly.  The salt is decoded with
`base64ToArrayBuffer` *outside* the inner try/catch, so a salt that is
not valid base64 escapes to the outer catch (`verifyError`); failures
of `this.decrypt` on the marker are caught by the inner catch
(`wrongPassword`). -/
def SecurityManager.verifyMasterPassword (cfg? : Option SecurityConfig)
    (inputPassword : String) : VerifyResult :=
  match cfg? with
  | none => .noConfig
  | some config =>
    match atobAux config.salt.data with
    | none => .verifyError
    | some salt =>
      let key := SecurityManager.deriveKey inputPassword salt
      match SecurityManager.decrypt config.verificationData key with
      | none => .wrongPassword
      | some decrypted =>
        if decrypted = SecurityManager.VERIFICATION_TEXT then .ok key
        else .wrongPassword

/-- A JavaScript value passed in the `password`/`key` position: either a
string or a `CryptoKey` handle (carrying its raw bytes). -/
inductive JSKeyArg where
  | str (s : String)
  | cryptoKey (raw : List Nat)
deriving DecidableEq

/-- JS `ToString` as applied by `TextEncoder.encode` to a non-string
argument: strings pass through, and every `CryptoKey` object
stringifies to the same constant `"[object CryptoKey]"`. -/
def jsKeyArgToString : JSKeyArg → String
  | .str s => s
  | .cryptoKey _ => "[object CryptoKey]"

/-- `CryptoUtils.deriveKey(password, salt)`: PBKDF2 with 100000
iterations over `TextEncoder.encode(password)`. -/
def CryptoUtils.deriveKey (password : JSKeyArg) (salt : List Nat) : List Nat :=
  pbkdf2 (strBytes (jsKeyArgToString password)) salt 100000

/-- `CryptoUtils.encrypt(plaintext, password)`: fresh random salt and iv
(explicit arguments), blob `salt ‖ iv ‖ ciphertext`, base64. -/
def CryptoUtils.encrypt (plaintext : String) (password : JSKeyArg)
    (salt iv : List Nat) : String :=
  String.mk (btoaAux (salt ++ (iv ++ aesGcmEncrypt (CryptoUtils.deriveKey password salt) iv
    (strBytes plaintext))))

/-- `CryptoUtils.decrypt(ciphertext, password)`: split the decoded blob
at offsets 16 and 28, re-derive the key from the embedded salt and
decrypt.  `none` models the thrown `解密失败` error. -/
def CryptoUtils.decrypt (ciphertext : String) (password : JSKeyArg) : Option String :=
  match atobAux ciphertext.data with
  | none => none
  | some data =>
    match aesGcmDecrypt (CryptoUtils.deriveKey password (data.take 16))
        ((data.drop 16).take 12) (data.drop 28) with
    | none => none
    | some pt => utf8DecodeStr pt

/-- `CryptoUtils.isBase64(str)`: nonempty string, length `≡ 0 mod 4`,
the strict regex, decodes, and the decoded length is at least 28. -/
def CryptoUtils.isBase64 (s : String) : Bool :=
  if s.data = [] then false
  else if s.data.length % 4 ≠ 0 then false
  else if regexB64 s.data = false then false
  else
    match atobAux s.data with
    | none => false
    | some decoded => decide (28 ≤ decoded.length)

/-- `CryptoUtils.encryptPassword(password, key)`: throws (`none`) on a
falsy key, otherwise delegates to `this.encrypt(password, key)` — the
`CryptoKey` lands in the *password-string* position of `encrypt`. -/
def CryptoUtils.encryptPassword (password : String) (key : Option JSKeyArg)
    (salt iv : List Nat) : Option String :=
  match key with
  | none => none
  | some (.str "") => none
  | some k => some (CryptoUtils.encrypt password k salt iv)

/-- `CryptoUtils.decryptPassword(encryptedPassword, key)`: `isBase64`
gate, falsy-key check, then `this.decrypt(encryptedPassword, key)`. -/
def CryptoUtils.decryptPassword (encryptedPassword : String) (key : Option JSKeyArg) :
    Option String :=
  if CryptoUtils.isBase64 encryptedPassword = false then none
  else
    match key with
    | none => none
    | some (.str "") => none
    | some k => CryptoUtils.decrypt encryptedPassword k

theorem sm_blob_allBytes (s : String) (key iv : List Nat) (hiv : allBytes iv) :
    allBytes (iv ++ aesGcmEncrypt key iv (strBytes s)) := by
  intro b hb
  rcases List.mem_append.mp hb with h | h
  · exact hiv b h
  · exact gcm_ct_allBytes key iv (strBytes s) b h

theorem sm_decrypt_encrypt (s : String) (key iv : List Nat) (hivlen : iv.length = 12)
    (hiv : allBytes iv) :
    SecurityManager.decrypt (SecurityManager.encrypt s key iv) key = some s := by
  have hall := sm_blob_allBytes s key iv hiv
  have hdata : (SecurityManager.encrypt s key iv).data =
      btoaAux (iv ++ aesGcmEncrypt key iv (strBytes s)) := rfl
  have htake : (iv ++ aesGcmEncrypt key iv (strBytes s)).take 12 = iv := by
    rw [← hivlen]
    exact List.take_left iv _
  have hdrop : (iv ++ aesGcmEncrypt key iv (strBytes s)).drop 12 =
      aesGcmEncrypt key iv (strBytes s) := by
    rw [← hivlen]
    exact List.drop_left iv _
  unfold SecurityManager.decrypt
  rw [hdata, atob_btoa _ hall]
  simp only [htake, hdrop, gcm_decrypt_encrypt key iv (strBytes s) (strBytes_allBytes s)]
  exact utf8DecodeStr_strBytes s

theorem sm_decrypt_encrypt_wrong_key (s : String) (k1 k2 iv : List Nat)
    (hivlen : iv.length = 12) (hiv : allBytes iv) (h1 : allBytes k1) (h2 : allBytes k2)
    (hne : k1 ≠ k2) :
    SecurityManager.decrypt (SecurityManager.encrypt s k1 iv) k2 = none := by
  have hall := sm_blob_allBytes s k1 iv hiv
  have hdata : (SecurityManager.encrypt s k1 iv).data =
      btoaAux (iv ++ aesGcmEncrypt k1 iv (strBytes s)) := rfl
  have htake : (iv ++ aesGcmEncrypt k1 iv (strBytes s)).take 12 = iv := by
    rw [← hivlen]
    exact List.take_left iv _
  have hdrop : (iv ++ aesGcmEncrypt k1 iv (strBytes s)).drop 12 =
      aesGcmEncrypt k1 iv (strBytes s) := by
    rw [← hivlen]
    exact List.drop_left iv _
  unfold SecurityManager.decrypt
  rw [hdata, atob_btoa _ hall]
  simp only [htake, hdrop, gcm_decrypt_wrong_key k1 k2 iv (strBytes s) h1 h2 hne]

theorem sm_encrypt_isBase64 (s : String) (key iv : List Nat) (hivlen : iv.length = 12)
    (hiv : allBytes iv) :
    CryptoUtils.isBase64 (SecurityManager.encrypt s key iv) = true := by
  have hall := sm_blob_allBytes s key iv hiv
  have hdata : (SecurityManager.encrypt s key iv).data =
      btoaAux (iv ++ aesGcmEncrypt key iv (strBytes s)) := rfl
  have hblen : 28 ≤ (iv ++ aesGcmEncrypt key iv (strBytes s)).length := by
    have := gcm_ct_len key iv (strBytes s)
    simp only [List.length_append]
    omega
  have hbne : iv ++ aesGcmEncrypt key iv (strBytes s) ≠ [] := by
    intro hc
    have := congrArg List.length hc
    simp only [List.length_nil] at this
    omega
  unfold CryptoUtils.isBase64
  rw [hdata, if_neg (btoaAux_ne_nil _ hbne), if_neg (by simp [btoaAux_len_mod4]),
    if_neg (by simp [regexB64_btoa _ hall hbne]), atob_btoa _ hall]
  simp only [decide_eq_true_eq]
  exact hblen

theorem cu_blob_allBytes (s : String) (p : JSKeyArg) (salt iv : List Nat)
    (hsalt : allBytes salt) (hiv : allBytes iv) :
    allBytes (salt ++ (iv ++ aesGcmEncrypt (CryptoUtils.deriveKey p salt) iv (strBytes s))) := by
  intro b hb
  rcases List.mem_append.mp hb with h | h
  · exact hsalt b h
  · rcases List.mem_append.mp h with h | h
    · exact hiv b h
    · exact gcm_ct_allBytes _ iv (strBytes s) b h

theorem cu_decrypt_encrypt (s : String) (p : JSKeyArg) (salt iv : List Nat)
    (hsaltlen : salt.length = 16) (hsalt : allBytes salt)
    (hivlen : iv.length = 12) (hiv : allBytes iv) :
    CryptoUtils.decrypt (CryptoUtils.encrypt s p salt iv) p = some s := by
  have hall := cu_blob_allBytes s p salt iv hsalt hiv
  have hdata : (CryptoUtils.encrypt s p salt iv).data =
      btoaAux (salt ++ (iv ++ aesGcmEncrypt (CryptoUtils.deriveKey p salt) iv
        (strBytes s))) := rfl
  have htake16 : (salt ++ (iv ++ aesGcmEncrypt (CryptoUtils.deriveKey p salt) iv
      (strBytes s))).take 16 = salt := by
    rw [← hsaltlen]
    exact List.take_left salt _
  have hdrop16 : (salt ++ (iv ++ aesGcmEncrypt (CryptoUtils.deriveKey p salt) iv
      (strBytes s))).drop 16 = iv ++ aesGcmEncrypt (CryptoUtils.deriveKey p salt) iv
      (strBytes s) := by
    rw [← hsaltlen]
    exact List.drop_left salt _
  have htake12 : (iv ++ aesGcmEncrypt (CryptoUtils.deriveKey p salt) iv
      (strBytes s)).take 12 = iv := by
    rw [← hivlen]
    exact List.take_left iv _
  have hdrop28 : (salt ++ (iv ++ aesGcmEncrypt (CryptoUtils.deriveKey p salt) iv
      (strBytes s))).drop 28 = aesGcmEncrypt (CryptoUtils.deriveKey p salt) iv
      (strBytes s) := by
    rw [← List.append_assoc]
    have hlen : (salt ++ iv).length = 28 := by
      simp [hsaltlen, hivlen]
    rw [← hlen]
    exact List.drop_left (salt ++ iv) _
  unfold CryptoUtils.decrypt
  rw [hdata, atob_btoa _ hall]
  simp only [htake16, hdrop16, htake12, hdrop28,
    gcm_decrypt_encrypt _ iv (strBytes s) (strBytes_allBytes s)]
  exact utf8DecodeStr_strBytes s

/-! ## Session authority (background.js)

In-memory globals (`sessionKey`, `sessionMode`), the `sessionTimeout`
alarm (its absolute fire time), and the `chrome.storage.session` mirror.
Times are milliseconds since epoch; the JS `Date` calendar comparison is
modelled with UTC days. -/

/-- The three keys the mirror stores in `chrome.storage.session`. -/
structure SessionMirror where
  sessionKey : String
  sessionMode : String
  sessionCreatedAt : Int
deriving DecidableEq

/-- The authority's state: the two in-memory globals, the pending
`sessionTimeout` alarm (absolute fire time), and the mirror. -/
structure BgState where
  sessionKey : Option String
  sessionMode : String
  alarmAt : Option Int
  mirror : Option SessionMirror
deriving DecidableEq

/-- Initial globals: `let sessionKey = null; let sessionMode = 'default'`. -/
def initBgState : BgState :=
  { sessionKey := none, sessionMode := "default", alarmAt := none, mirror := none }

/-- JS truthiness of a nullable string (`null`/`undefined`/`''` are falsy). -/
def jsTruthy : Option String → Bool
  | none => false
  | some s => !(s == "")

/-- Calendar day of a timestamp (models `Date.toDateString` equality). -/
def dayOf (t : Int) : Int := t / 86400000

/-- The expiry recomputation of the `getSessionKey` restore path:
`'default'` expires strictly after 30 minutes, `'today'` on a calendar
day change, everything else never (by time). -/
def sessionExpiredRecompute (mode : String) (createdAt now : Int) : Bool :=
  if mode = "default" then decide (now - createdAt > 30 * 60 * 1000)
  else if mode = "today" then decide (dayOf createdAt ≠ dayOf now)
  else false

/-- `setSessionKey` message: store key and mode (`request.mode ||
'default'`), clear the alarm, schedule a new one for `'default'`
(30 min) or `'today'` (to 23:59:59), and overwrite the mirror.
Returns the new state and the `{success: true}` response. -/
def handleSetSessionKey (_st : BgState) (now : Int) (keyData : String)
    (mode : Option String) : BgState × Bool :=
  let sm := match mode with
    | none => "default"
    | some m => if m = "" then "default" else m
  let alarmAt : Option Int :=
    if sm = "default" then some (now + 30 * 60000)
    else if sm = "today" then
      let endOfDay := dayOf now * 86400000 + 86399000
      let minutesLeft := max 1 ((endOfDay - now + 59999) / 60000)
      some (now + minutesLeft * 60000)
    else none
  (({ sessionKey := some keyData, sessionMode := sm, alarmAt := alarmAt,
      mirror := some ⟨keyData, sm, now⟩ } : BgState), true)

/-- `getSessionKey` message: answer from memory if the key is truthy;
otherwise restore from the mirror, recomputing expiry; purge the mirror
and answer `null` if expired. -/
def handleGetSessionKey (st : BgState) (now : Int) : BgState × Option String :=
  if jsTruthy st.sessionKey then (st, st.sessionKey)
  else
    match st.mirror with
    | none => (st, none)
    | some m =>
      if m.sessionKey = "" then (st, none)
      else
        let mode := if m.sessionMode = "" then "default" else m.sessionMode
        if sessionExpiredRecompute mode m.sessionCreatedAt now = false then
          ({ st with sessionKey := some m.sessionKey, sessionMode := mode },
            some m.sessionKey)
        else
          ({ st with mirror := none }, none)

/-- `clearSession` message: drop the key, reset the mode, clear the
alarm and the mirror. -/
def handleClearSession (_st : BgState) : BgState × Bool :=
  (initBgState, true)

/-- The `chrome.alarms.onAlarm` listener for `sessionTimeout`: clears
the in-memory key and the mirror (the fired one-shot alarm is gone). -/
def fireSessionAlarm (_st : BgState) : BgState :=
  { sessionKey := none, sessionMode := "default", alarmAt := none, mirror := none }

/-- A service-worker restart: the in-memory globals reset to their
initial values; `chrome.alarms` and `chrome.storage.session` survive. -/
def serviceWorkerRestart (st : BgState) : BgState :=
  { sessionKey := none, sessionMode := "default", alarmAt := st.alarmAt,
    mirror := st.mirror }

/-! ## Local storage, backup and migration

`chrome.storage.local` keys the core touches: `environments`, `accounts`,
`masterPassword` (the legacy plaintext marker), `securityConfig` and
`backup_v1_2_0`.  Environment records are opaque to the core and are
modelled as strings. -/

/-- An `accounts[]` record (the fields the core reads and writes). -/
structure Account where
  username : String
  password : String
deriving DecidableEq

/-- The `backup_v1_2_0` record: `{timestamp, version, data}` where
`data` is the prior `environments`/`accounts`/`masterPassword`. -/
structure BackupRecord where
  timestamp : Int
  version : String
  environments : List String
  accounts : List Account
  masterPassword : Option String
deriving DecidableEq

/-- The slice of `chrome.storage.local` used by the core. -/
structure LocalStore where
  environments : List String
  accounts : List Account
  masterPassword : Option String
  securityConfig : Option SecurityConfig
  backupV120 : Option BackupRecord
deriving DecidableEq

/-- `initializeMasterPassword` (security-manager.js): validate strength,
generate a random salt (explicit argument), derive a key, encrypt the
marker with a fresh iv, persist the config.  `true` models
`{success: true}`; the `setSessionKey` message it sends to the
background page is modelled separately by `handleSetSessionKey`. -/
def SecurityManager.initMasterPassword (st : LocalStore) (masterPassword : String)
    (salt iv : List Nat) (now : Int) : Bool × LocalStore :=
  if SecurityManager.validatePasswordStrength masterPassword = false then (false, st)
  else
    let key := SecurityManager.deriveKey masterPassword salt
    let verificationData := SecurityManager.encrypt SecurityManager.VERIFICATION_TEXT key iv
    let cfg : SecurityConfig :=
      ⟨"2.0", String.mk (btoaAux salt), SecurityManager.PBKDF2_ITERATIONS,
        verificationData, now⟩
    (true, { st with securityConfig := some cfg })

/-- `checkNeedsMigration` / `needsMigration`: a truthy legacy
`masterPassword` is present. -/
def checkNeedsMigration (st : LocalStore) : Bool := jsTruthy st.masterPassword

/-- `backupOldData` (background.js): snapshot `environments`, `accounts`
and `masterPassword` into `backup_v1_2_0` with a timestamp. -/
def backupOldData (st : LocalStore) (now : Int) : LocalStore :=
  let rec0 : BackupRecord := ⟨now, "1.2.0", st.environments, st.accounts, st.masterPassword⟩
  { st with backupV120 := some rec0 }

/-- The `onInstalled` update handler: back up the old data iff migration
is needed. -/
def handleUpdate (st : LocalStore) (now : Int) : LocalStore :=
  if checkNeedsMigration st then backupOldData st now else st

/-- Step 3 of the migration: decrypt each account password with the
legacy password-based codec (`window.cryptoUtils.decrypt`); on any
failure, or for a falsy stored password, carry the stored string
through as the "decrypted" value. -/
def legacyDecryptAccounts (oldMasterPassword : String) (accounts : List Account) :
    List (Account × String) :=
  accounts.map (fun a =>
    if a.password ≠ "" then
      match CryptoUtils.decrypt a.password (.str oldMasterPassword) with
      | some d => (a, d)
      | none => (a, a.password)
    else (a, a.password))

/-- Step 5 of the migration: re-encrypt every carried value under the
new key with a fresh iv per item, dropping `decryptedPassword`. -/
def reEncryptAccounts (newKey : List Nat) (ivs : Nat → List Nat) :
    Nat → List (Account × String) → List Account
  | _, [] => []
  | i, (a, dp) :: rest =>
    { a with password := SecurityManager.encrypt dp newKey (ivs i) } ::
      reEncryptAccounts newKey ivs (i + 1) rest

/-- Outcome of `migrateFromOldVersion`, separated by the distinct
`message` strings: `未找到旧版本数据`, `旧主密码错误`, the propagated
initialization failure, success, and the outer catch. -/
inductive MigrateResult where
  | ok
  | noOldData
  | wrongOldPassword
  | initFailed
  | migrateError
deriving DecidableEq

/-- `migrateFromOldVersion(oldMasterPassword, newMasterPassword)`:
compare the stored legacy password, legacy-decrypt every account
(best-effort), initialize the new scheme, re-derive the new key from
the freshly stored config salt, re-encrypt everything, store the new
accounts and remove the legacy password.  Random inputs (init salt,
marker iv, per-account ivs) are explicit arguments. -/
def SecurityManager.migrateFromOldVersion (st : LocalStore)
    (oldMasterPassword newMasterPassword : String) (initSalt markerIv : List Nat)
    (ivs : Nat → List Nat) (now : Int) : MigrateResult × LocalStore :=
  match st.masterPassword with
  | none => (.noOldData, st)
  | some mp =>
    if mp = "" then (.noOldData, st)
    else if mp ≠ oldMasterPassword then (.wrongOldPassword, st)
    else
      let decrypted := legacyDecryptAccounts oldMasterPassword st.accounts
      match SecurityManager.initMasterPassword st newMasterPassword initSalt markerIv now with
      | (false, _) => (.initFailed, st)
      | (true, st1) =>
        match st1.securityConfig with
        | none => (.migrateError, st1)
        | some config =>
          match atobAux config.salt.data with
          | none => (.migrateError, st1)
          | some newSalt =>
            let newKey := SecurityManager.deriveKey newMasterPassword newSalt
            let newAccounts := reEncryptAccounts newKey ivs 0 decrypted
            let st2 : LocalStore := { st1 with accounts := newAccounts, masterPassword := none }
            (.ok, st2)

theorem jsTruthy_some (k : String) (hk : k ≠ "") : jsTruthy (some k) = true := by
  have hbeq : (k == "") = false := beq_eq_false_iff_ne.mpr hk
  simp [jsTruthy, hbeq]

theorem handleSetSessionKey_state (st : BgState) (now : Int) (k m : String) (hm : m ≠ "") :
    (handleSetSessionKey st now k (some m)).1.sessionKey = some k ∧
    (handleSetSessionKey st now k (some m)).1.sessionMode = m ∧
    (handleSetSessionKey st now k (some m)).1.mirror = some ⟨k, m, now⟩ := by
  simp [handleSetSessionKey, hm]

theorem getSessionKey_restored (mir : BgState) (k m : String) (t0 now : Int)
    (hk : k ≠ "") (hmir : mir.sessionKey = none) (hm : mir.mirror = some ⟨k, m, t0⟩)
    (hmode : m ≠ "") :
    (sessionExpiredRecompute m t0 now = false →
      (handleGetSessionKey mir now).2 = some k ∧
      (handleGetSessionKey mir now).1.sessionKey = some k) ∧
    (sessionExpiredRecompute m t0 now = true →
      (handleGetSessionKey mir now).2 = none ∧
      (handleGetSessionKey mir now).1.mirror = none) := by
  unfold handleGetSessionKey
  rw [hmir, hm]
  cases hexp : sessionExpiredRecompute m t0 now with
  | false =>
    refine ⟨fun _ => ?_, fun hc => by simp [hexp] at hc⟩
    simp [jsTruthy, hk, hmode, hexp]
  | true =>
    refine ⟨fun hc => by simp [hexp] at hc, fun _ => ?_⟩
    simp [jsTruthy, hk, hmode, hexp]

/-- C7: after `setSession(k, m)` followed by an authority restart that
drops in-memory state but keeps the ephemeral mirror, `getSession()`
still returns `k` when the session is not expired under the recomputed
rule for `m` (elapsed time for `'default'`/Fixed, calendar-day
comparison for `'today'`/EndOfDay, never-by-time for
`'browser'`/UntilBrowserClose and anything else); when it is expired,
the mirror is purged and `null` is returned. -/
theorem c7_session_survives_restart (st : BgState) (k m : String) (t0 now : Int)
    (hk : k ≠ "") (hm : m ≠ "") :
    (sessionExpiredRecompute m t0 now = false →
      (handleGetSessionKey (serviceWorkerRestart
        (handleSetSessionKey st t0 k (some m)).1) now).2 = some k ∧
      (handleGetSessionKey (serviceWorkerRestart
        (handleSetSessionKey st t0 k (some m)).1) now).1.sessionKey = some k) ∧
    (sessionExpiredRecompute m t0 now = true →
      (handleGetSessionKey (serviceWorkerRestart
        (handleSetSessionKey st t0 k (some m)).1) now).2 = none ∧
      (handleGetSessionKey (serviceWorkerRestart
        (handleSetSessionKey st t0 k (some m)).1) now).1.mirror = none) ∧
    sessionExpiredRecompute "default" t0 now = decide (now - t0 > 30 * 60 * 1000) ∧
    sessionExpiredRecompute "today" t0 now = decide (dayOf t0 ≠ dayOf now) ∧
    sessionExpiredRecompute "browser" t0 now = false := by
  have hmirror := (handleSetSessionKey_state st t0 k m hm).2.2
  have hskey : (serviceWorkerRestart (handleSetSessionKey st t0 k (some m)).1).sessionKey =
    none := rfl
  have hsm : (serviceWorkerRestart (handleSetSessionKey st t0 k (some m)).1).mirror =
      some ⟨k, m, t0⟩ := by
    show (handleSetSessionKey st t0 k (some m)).1.mirror = some ⟨k, m, t0⟩
    exact hmirror
  have hrest := getSessionKey_restored (serviceWorkerRestart
    (handleSetSessionKey st t0 k (some m)).1) k m t0 now hk hskey hsm hm
  refine ⟨hrest.1, hrest.2, ?_, ?_, ?_⟩
  · rfl
  · rfl
  · rfl

/-- Witness for C7 at `k = "KEY"`, `m = "browser"`, creation time 0,
query time far in the future: never expired by time, key restored. -/
theorem c7_session_survives_restart_witness :
    ("KEY" : String) ≠ "" ∧ ("browser" : String) ≠ "" ∧
    sessionExpiredRecompute "browser" 0 999999999 = false ∧
    (handleGetSessionKey (serviceWorkerRestart
      (handleSetSessionKey initBgState 0 "KEY" (some "browser")).1) 999999999).2 =
        some "KEY" :=
  ⟨by decide, by decide, by decide,
    ((c7_session_survives_restart initBgState "KEY" "browser" 0 999999999
      (by decide) (by decide)).1 (by decide)).1⟩

/-- C6 (amended): with mode `'default'` (Fixed), `setSession` schedules
the alarm for exactly 30 minutes after creation; `getSession` answers
the key from memory until the alarm fires; on the mirror-recompute
path it still returns the key at every instant *up to and including*
the 30-minute boundary and `null` (purging the mirror) strictly after
it; once the alarm fires, `getSession` returns `null`. -/
theorem c6_fixed_session_expiry (st : BgState) (k : String) (t0 now : Int) (hk : k ≠ "") :
    (handleSetSessionKey st t0 k (some "default")).1.alarmAt = some (t0 + 30 * 60 * 1000) ∧
    (handleGetSessionKey (handleSetSessionKey st t0 k (some "default")).1 now).2 = some k ∧
    (now - t0 ≤ 30 * 60 * 1000 →
      (handleGetSessionKey (serviceWorkerRestart
        (handleSetSessionKey st t0 k (some "default")).1) now).2 = some k) ∧
    (now - t0 > 30 * 60 * 1000 →
      (handleGetSessionKey (serviceWorkerRestart
        (handleSetSessionKey st t0 k (some "default")).1) now).2 = none ∧
      (handleGetSessionKey (serviceWorkerRestart
        (handleSetSessionKey st t0 k (some "default")).1) now).1.mirror = none) ∧
    (handleGetSessionKey (fireSessionAlarm
      (handleSetSessionKey st t0 k (some "default")).1) now).2 = none := by
  have hrest := c7_session_survives_restart st k "default" t0 now hk (by decide)
  refine ⟨?_, ?_, ?_, ?_, ?_⟩
  · have h30 : (30 : Int) * 60000 = 30 * 60 * 1000 := by norm_num
    simp [handleSetSessionKey, h30]
  · simp [handleGetSessionKey, handleSetSessionKey, jsTruthy_some k hk]
  · intro hle
    have hexp : sessionExpiredRecompute "default" t0 now = false := by
      have := hrest.2.2.1
      rw [this]
      simp only [decide_eq_false_iff_not]
      omega
    exact (hrest.1 hexp).1
  · intro hgt
    have hexp : sessionExpiredRecompute "default" t0 now = true := by
      have := hrest.2.2.1
      rw [this]
      simp only [decide_eq_true_eq]
      omega
    exact hrest.2.1 hexp
  · rfl

/-- Witness for C6 at `k = "KEY"`, creation 0: alarm at 1800000, key
before the boundary, null on the mirror path strictly after it, null
after the alarm fires. -/
theorem c6_fixed_session_expiry_witness :
    ("KEY" : String) ≠ "" ∧
    (handleSetSessionKey initBgState 0 "KEY" (some "default")).1.alarmAt = some 1800000 ∧
    ((0 : Int) - 0 ≤ 30 * 60 * 1000) ∧
    (handleGetSessionKey (serviceWorkerRestart
      (handleSetSessionKey initBgState 0 "KEY" (some "default")).1) 0).2 = some "KEY" ∧
    ((1800001 : Int) - 0 > 30 * 60 * 1000) ∧
    (handleGetSessionKey (serviceWorkerRestart
      (handleSetSessionKey initBgState 0 "KEY" (some "default")).1) 1800001).2 = none :=
  ⟨by decide,
    (c6_fixed_session_expiry initBgState "KEY" 0 0 (by decide)).1,
    by decide,
    (c6_fixed_session_expiry initBgState "KEY" 0 0 (by decide)).2.2.1 (by decide),
    by decide,
    ((c6_fixed_session_expiry initBgState "KEY" 0 1800001 (by decide)).2.2.2.1 (by decide)).1⟩

/-- C6 counterexample: at the exact instant the 30-minute duration has
elapsed (creation 0, query 1800000), the mirror-recompute path still
returns the key — the claim requires `null` at that instant. -/
theorem c6_boundary_returns_key :
    (1800000 : Int) - 0 = 30 * 60 * 1000 ∧
    (handleGetSessionKey (serviceWorkerRestart
      (handleSetSessionKey initBgState 0 "KEY" (some "default")).1) 1800000).2 =
      some "KEY" := by
  refine ⟨by decide, ?_⟩
  decide

/-- C10 (amended): `setSession` with any *nonempty* mode string other
than `'default'` and `'today'` succeeds, stores the key and that mode
verbatim (memory and mirror), schedules no alarm, and the restore-path
recomputation never expires such a session by time. -/
theorem c10_unrecognized_mode_is_browser (st : BgState) (k m : String) (now : Int)
    (hm0 : m ≠ "") (hm1 : m ≠ "default") (hm2 : m ≠ "today") :
    (handleSetSessionKey st now k (some m)).2 = true ∧
    (handleSetSessionKey st now k (some m)).1.sessionKey = some k ∧
    (handleSetSessionKey st now k (some m)).1.sessionMode = m ∧
    (handleSetSessionKey st now k (some m)).1.alarmAt = none ∧
    (handleSetSessionKey st now k (some m)).1.mirror = some ⟨k, m, now⟩ ∧
    (∀ t0 t1 : Int, sessionExpiredRecompute m t0 t1 = false) := by
  refine ⟨rfl, ?_, ?_, ?_, ?_, ?_⟩
  · exact (handleSetSessionKey_state st now k m hm0).1
  · exact (handleSetSessionKey_state st now k m hm0).2.1
  · simp [handleSetSessionKey, hm0, hm1, hm2]
  · exact (handleSetSessionKey_state st now k m hm0).2.2
  · intro t0 t1
    simp [sessionExpiredRecompute, hm1, hm2]

/-- Witness for C10 at the unrecognized mode `"xyz"`. -/
theorem c10_unrecognized_mode_witness :
    ("xyz" : String) ≠ "" ∧ ("xyz" : String) ≠ "default" ∧ ("xyz" : String) ≠ "today" ∧
    (handleSetSessionKey initBgState 5 "KEY" (some "xyz")).1.sessionMode = "xyz" ∧
    (handleSetSessionKey initBgState 5 "KEY" (some "xyz")).1.alarmAt = none ∧
    sessionExpiredRecompute "xyz" 5 999999999 = false :=
  ⟨by decide, by decide, by decide,
    (c10_unrecognized_mode_is_browser initBgState "KEY" "xyz" 5
      (by decide) (by decide) (by decide)).2.2.1,
    (c10_unrecognized_mode_is_browser initBgState "KEY" "xyz" 5
      (by decide) (by decide) (by decide)).2.2.2.1,
    (c10_unrecognized_mode_is_browser initBgState "KEY" "xyz" 5
      (by decide) (by decide) (by decide)).2.2.2.2.2 5 999999999⟩

/-- C10 counterexample: the empty string is a mode other than the two
recognized timed modes, yet `setSession(k, '')` normalizes it to
`'default'` (it is falsy), stores `'default'` rather than the mode
verbatim, and schedules the 30-minute alarm. -/
theorem c10_empty_mode_behaves_fixed :
    (handleSetSessionKey initBgState 0 "KEY" (some "")).1.sessionMode = "default" ∧
    (handleSetSessionKey initBgState 0 "KEY" (some "")).1.alarmAt = some 1800000 ∧
    sessionExpiredRecompute
      (handleSetSessionKey initBgState 0 "KEY" (some "")).1.sessionMode 0 1800001 = true := by
  refine ⟨?_, ?_, ?_⟩ <;> decide

/-- C5 (amended): once the stored salt decodes, every decryption or
authentication failure inside `verifyMasterPassword` is reported as the
single `WrongPassword` outcome (`主密码错误`): the result is either
success or `wrongPassword`. -/
theorem c5_verify_uniform_failure (cfg : SecurityConfig) (input : String) (salt : List Nat)
    (hsalt : atobAux cfg.salt.data = some salt) :
    SecurityManager.verifyMasterPassword (some cfg) input = .wrongPassword ∨
      ∃ key, SecurityManager.verifyMasterPassword (some cfg) input = .ok key := by
  have hred : SecurityManager.verifyMasterPassword (some cfg) input =
      (match atobAux cfg.salt.data with
        | none => VerifyResult.verifyError
        | some salt =>
          let key := SecurityManager.deriveKey input salt
          match SecurityManager.decrypt cfg.verificationData key with
          | none => VerifyResult.wrongPassword
          | some decrypted =>
            if decrypted = SecurityManager.VERIFICATION_TEXT then VerifyResult.ok key
            else VerifyResult.wrongPassword) := rfl
  rw [hred, hsalt]
  cases hdec : SecurityManager.decrypt cfg.verificationData
      (SecurityManager.deriveKey input salt) with
  | none =>
    left
    simp [hdec]
  | some d =>
    by_cases hd : d = SecurityManager.VERIFICATION_TEXT
    · right
      exact ⟨SecurityManager.deriveKey input salt, by simp [hdec, hd]⟩
    · left
      simp [hdec, hd]

/-- Witness for C5 (amended) at a config whose salt decodes but whose
marker is garbage: the outcome collapses into the uniform disjunction. -/
def cfgSaltOk : SecurityConfig :=
  ⟨"2.0", String.mk (btoaAux (List.replicate 16 1)), 120000, "AAAA", 0⟩

theorem c5_verify_uniform_failure_witness :
    atobAux cfgSaltOk.salt.data = some (List.replicate 16 1) ∧
    (SecurityManager.verifyMasterPassword (some cfgSaltOk) "pw" = .wrongPassword ∨
      ∃ key, SecurityManager.verifyMasterPassword (some cfgSaltOk) "pw" = .ok key) :=
  ⟨by decide, c5_verify_uniform_failure cfgSaltOk "pw" (List.replicate 16 1) (by decide)⟩

/-- A stored config whose `salt` field is not valid base64. -/
def cfgBadSalt : SecurityConfig := ⟨"2.0", "####", 120000, "AAAA", 0⟩

/-- C5 counterexample: with a corrupt (non-base64) salt,
`base64ToArrayBuffer` throws outside the inner try/catch, so
`verifyMasterPassword` reports the generic `验证失败` error — an outcome
distinguishable from `WrongPassword`, contrary to the claim that every
failure on a present config is reported uniformly as `WrongPassword`. -/
theorem c5_corrupt_salt_distinct_error :
    SecurityManager.verifyMasterPassword (some cfgBadSalt) "Abcd1234" =
      VerifyResult.verifyError ∧
    VerifyResult.verifyError ≠ VerifyResult.wrongPassword := by
  refine ⟨?_, by decide⟩
  decide

set_option maxRecDepth 400000

/-- The salt of a config created when the iteration constant was
100000, together with the key actually derived from it back then. -/
def saltIter100 : List Nat := List.replicate 16 0

/-- The key derived from the correct passphrase with the *stored*
iteration count 100000. -/
def keyIter100 : List Nat := pbkdf2 (strBytes "Abcd1234") saltIter100 100000

/-- A persisted config from an installation whose keys were derived
with 100000 iterations: `iterations` records 100000 and the marker
decrypts under `keyIter100`. -/
def cfgIter100 : SecurityConfig :=
  ⟨"2.0", String.mk (btoaAux saltIter100), 100000,
    SecurityManager.encrypt SecurityManager.VERIFICATION_TEXT keyIter100
      (List.replicate 12 4), 0⟩

/-- C2: `verifyMasterPassword` derives the candidate key with the
hard-coded current constant `PBKDF2_ITERATIONS = 120000` and ignores
the `iterations` field stored in the config.  On a config created with
iteration count 100000 the correct passphrase fails verification, even
though the marker demonstrably decrypts under the key derived with the
stored count. -/
theorem c2_verify_ignores_stored_iterations :
    cfgIter100.iterations = 100000 ∧
    SecurityManager.decrypt cfgIter100.verificationData keyIter100 =
      some SecurityManager.VERIFICATION_TEXT ∧
    SecurityManager.verifyMasterPassword (some cfgIter100) "Abcd1234" =
      VerifyResult.wrongPassword := by
  refine ⟨rfl, ?_, ?_⟩
  · exact sm_decrypt_encrypt SecurityManager.VERIFICATION_TEXT keyIter100
      (List.replicate 12 4) (by decide) (by decide)
  · decide

/-- C1: for the `CryptoUtils.encryptPassword`/`decryptPassword` pair the
authentication claim fails: two distinct `CryptoKey`s stringify to the
same `"[object CryptoKey]"` before PBKDF2, so decrypting with a
different key *succeeds* and returns the plaintext instead of raising
an authentication error. -/
theorem c1_cryptoUtils_decrypt_ignores_key :
    JSKeyArg.cryptoKey [0] ≠ JSKeyArg.cryptoKey [1] ∧
    jsKeyArgToString (.cryptoKey [0]) = jsKeyArgToString (.cryptoKey [1]) ∧
    (CryptoUtils.encryptPassword "hunter2" (some (.cryptoKey [0]))
        (List.replicate 16 3) (List.replicate 12 5)).bind
      (fun ct => CryptoUtils.decryptPassword ct (some (.cryptoKey [1]))) =
        some "hunter2" := by
  refine ⟨by decide, rfl, ?_⟩
  rfl

/-- C8: for every plaintext string `s`, key `k` and well-formed fresh
12-byte iv, `decrypt(encrypt(s, k), k)` returns exactly `s`. -/
theorem c8_codec_round_trip (s : String) (key iv : List Nat)
    (hlen : iv.length = 12) (hbytes : allBytes iv) :
    SecurityManager.decrypt (SecurityManager.encrypt s key iv) key = some s :=
  sm_decrypt_encrypt s key iv hlen hbytes

/-- Witness for C8 at `s = "hunter2"`, `k = [1,2,3]`, iv `0^12`. -/
theorem c8_codec_round_trip_witness :
    (List.replicate 12 0).length = 12 ∧ allBytes (List.replicate 12 0) ∧
    SecurityManager.decrypt
      (SecurityManager.encrypt "hunter2" [1, 2, 3] (List.replicate 12 0)) [1, 2, 3] =
      some "hunter2" :=
  ⟨by decide, by decide,
    c8_codec_round_trip "hunter2" [1, 2, 3] (List.replicate 12 0) (by decide) (by decide)⟩

/-- C9: the classifier accepts every string `encrypt` produces, and
rejects every string that fails the strict base64 regex, whose length
is not a multiple of 4, or whose decoded form is shorter than 28
bytes. -/
theorem c9_isCiphertext_classifier :
    (∀ (s : String) (key iv : List Nat), iv.length = 12 → allBytes iv →
      CryptoUtils.isBase64 (SecurityManager.encrypt s key iv) = true) ∧
    (∀ t : String, regexB64 t.data = false → CryptoUtils.isBase64 t = false) ∧
    (∀ t : String, t.length % 4 ≠ 0 → CryptoUtils.isBase64 t = false) ∧
    (∀ (t : String) (d : List Nat), atobAux t.data = some d → d.length < 28 →
      CryptoUtils.isBase64 t = false) := by
  refine ⟨fun s key iv hlen hbytes => sm_encrypt_isBase64 s key iv hlen hbytes, ?_, ?_, ?_⟩
  · intro t ht
    simp [CryptoUtils.isBase64, ht]
  · intro t ht
    simp [CryptoUtils.isBase64, ht]
  · intro t d hd h28
    have hdle : decide (28 ≤ d.length) = false := decide_eq_false (by omega)
    simp [CryptoUtils.isBase64, hd, hdle]

/-- Witness for C9: an encrypted blob classifies as ciphertext; `"####"`
(regex failure), `"abc"` (length), and `"AAAA"` (decodes to 3 bytes)
are all rejected. -/
theorem c9_isCiphertext_classifier_witness :
    ((List.replicate 12 0).length = 12 ∧ allBytes (List.replicate 12 0) ∧
      CryptoUtils.isBase64 (SecurityManager.encrypt "x" [1] (List.replicate 12 0)) = true) ∧
    (regexB64 ("####" : String).data = false ∧ CryptoUtils.isBase64 "####" = false) ∧
    (("abc" : String).length % 4 ≠ 0 ∧ CryptoUtils.isBase64 "abc" = false) ∧
    (atobAux ("AAAA" : String).data = some [0, 0, 0] ∧ ([0, 0, 0] : List Nat).length < 28 ∧
      CryptoUtils.isBase64 "AAAA" = false) :=
  ⟨⟨by decide, by decide,
      c9_isCiphertext_classifier.1 "x" [1] (List.replicate 12 0) (by decide) (by decide)⟩,
    ⟨by decide, c9_isCiphertext_classifier.2.1 "####" (by decide)⟩,
    ⟨by decide, c9_isCiphertext_classifier.2.2.1 "abc" (by decide)⟩,
    ⟨by decide, by decide,
      c9_isCiphertext_classifier.2.2.2 "AAAA" [0, 0, 0] (by decide) (by decide)⟩⟩

theorem migrate_ok (st : LocalStore) (oldPw newPw : String)
    (initSalt markerIv : List Nat) (ivs : Nat → List Nat) (now : Int)
    (hmp : st.masterPassword = some oldPw) (hne : oldPw ≠ "")
    (hstrong : SecurityManager.validatePasswordStrength newPw = true)
    (hsalt : allBytes initSalt) :
    SecurityManager.migrateFromOldVersion st oldPw newPw initSalt markerIv ivs now =
      (MigrateResult.ok,
        { environments := st.environments,
          accounts := reEncryptAccounts (SecurityManager.deriveKey newPw initSalt) ivs 0
            (legacyDecryptAccounts oldPw st.accounts),
          masterPassword := none,
          securityConfig := some ⟨"2.0", String.mk (btoaAux initSalt),
            SecurityManager.PBKDF2_ITERATIONS,
            SecurityManager.encrypt SecurityManager.VERIFICATION_TEXT
              (SecurityManager.deriveKey newPw initSalt) markerIv, now⟩,
          backupV120 := st.backupV120 }) := by
  have hne2 : ¬ oldPw ≠ oldPw := fun h => h rfl
  have hval : ¬ (SecurityManager.validatePasswordStrength newPw = false) := by
    rw [hstrong]
    exact fun h => nomatch h
  have hdec : atobAux (String.mk (btoaAux initSalt)).data = some initSalt :=
    atob_btoa initSalt hsalt
  simp only [SecurityManager.migrateFromOldVersion, hmp, if_neg hne, if_neg hne2,
    SecurityManager.initMasterPassword, if_neg hval, hdec]

theorem reEncryptAccounts_isBase64 (key : List Nat) (ivs : Nat → List Nat)
    (hiv : ∀ j, (ivs j).length = 12 ∧ allBytes (ivs j)) :
    ∀ (l : List (Account × String)) (n : Nat) (a : Account),
      a ∈ reEncryptAccounts key ivs n l → CryptoUtils.isBase64 a.password = true := by
  intro l
  induction l with
  | nil =>
    intro n a ha
    simp [reEncryptAccounts] at ha
  | cons p rest ih =>
    intro n a ha
    obtain ⟨acct, dp⟩ := p
    simp only [reEncryptAccounts, List.mem_cons] at ha
    rcases ha with rfl | h
    · exact sm_encrypt_isBase64 dp key (ivs n) (hiv n).1 (hiv n).2
    · exact ih (n + 1) a h

theorem reEncryptAccounts_getElem (key : List Nat) (ivs : Nat → List Nat) :
    ∀ (l : List (Account × String)) (n i : Nat),
      (reEncryptAccounts key ivs n l)[i]? = (l[i]?).map
        (fun p => { p.1 with password := SecurityManager.encrypt p.2 key (ivs (n + i)) }) := by
  intro l
  induction l with
  | nil =>
    intro n i
    simp [reEncryptAccounts]
  | cons p rest ih =>
    intro n i
    obtain ⟨acct, dp⟩ := p
    cases i with
    | zero => simp [reEncryptAccounts]
    | succ i =>
      have hadd : n + 1 + i = n + (i + 1) := by omega
      simp only [reEncryptAccounts, List.getElem?_cons_succ, ih (n + 1) i, hadd]

theorem legacyDecryptAccounts_getElem (oldPw : String) (accounts : List Account)
    (i : Nat) (a : Account) (hai : accounts[i]? = some a) (hap : a.password ≠ "")
    (hfail : CryptoUtils.decrypt a.password (.str oldPw) = none) :
    (legacyDecryptAccounts oldPw accounts)[i]? = some (a, a.password) := by
  unfold legacyDecryptAccounts
  rw [List.getElem?_map, hai]
  simp [hap, hfail]

/-- C3 (amended): when an account's legacy decryption fails during
migration, the failure is recorded per item (a console warning) and the
item's original ciphertext string is carried into the re-encryption
step as its plaintext: migration still succeeds, and the item's stored
value afterwards is the *new-key encryption of the original ciphertext*
(decrypting it under the new key returns the original stored string) —
not the original stored value itself. -/
theorem c3_failed_item_reencrypted (st : LocalStore) (oldPw newPw : String)
    (initSalt markerIv : List Nat) (ivs : Nat → List Nat) (now : Int) (i : Nat) (a : Account)
    (hmp : st.masterPassword = some oldPw) (hne : oldPw ≠ "")
    (hstrong : SecurityManager.validatePasswordStrength newPw = true)
    (hsalt : allBytes initSalt)
    (hivi : (ivs i).length = 12 ∧ allBytes (ivs i))
    (hai : st.accounts[i]? = some a) (hap : a.password ≠ "")
    (hfail : CryptoUtils.decrypt a.password (.str oldPw) = none) :
    (SecurityManager.migrateFromOldVersion st oldPw newPw initSalt markerIv ivs now).1 =
      MigrateResult.ok ∧
    (SecurityManager.migrateFromOldVersion st oldPw newPw initSalt markerIv
        ivs now).2.accounts[i]? =
      some ⟨a.username, SecurityManager.encrypt a.password
        (SecurityManager.deriveKey newPw initSalt) (ivs i)⟩ ∧
    SecurityManager.decrypt
      (SecurityManager.encrypt a.password (SecurityManager.deriveKey newPw initSalt) (ivs i))
      (SecurityManager.deriveKey newPw initSalt) = some a.password := by
  have hmig := migrate_ok st oldPw newPw initSalt markerIv ivs now hmp hne hstrong hsalt
  rw [hmig]
  refine ⟨rfl, ?_, sm_decrypt_encrypt _ _ _ hivi.1 hivi.2⟩
  show (reEncryptAccounts (SecurityManager.deriveKey newPw initSalt) ivs 0
    (legacyDecryptAccounts oldPw st.accounts))[i]? = _
  rw [reEncryptAccounts_getElem,
    legacyDecryptAccounts_getElem oldPw st.accounts i a hai hap hfail]
  simp

/-- The pre-migration store of the migration counterexample: one
account whose stored password is not decryptable by the legacy codec. -/
def migStoreCex : LocalStore :=
  ⟨["env1"], [⟨"user1", "####"⟩], some "OldPass1", none, none⟩

/-- The per-account iv stream used in the concrete migrations. -/
def cexIvs : Nat → List Nat := fun _ => List.replicate 12 9

theorem cexIvs_ok : ∀ j, (cexIvs j).length = 12 ∧ allBytes (cexIvs j) :=
  fun _ => ⟨rfl, show allBytes (List.replicate 12 9) by decide⟩

/-- C3 counterexample: for an item whose legacy decryption fails, the
stored value after migration does **not** equal its stored value before
migration (the code re-encrypts the old ciphertext under the new key),
refuting the claim that the item's stored value is carried through
unchanged. -/
theorem c3_stored_value_changes :
    CryptoUtils.decrypt "####" (.str "OldPass1") = none ∧
    (SecurityManager.migrateFromOldVersion migStoreCex "OldPass1" "Abcd1234"
      (List.replicate 16 7) (List.replicate 12 8) cexIvs 200).1 = MigrateResult.ok ∧
    (SecurityManager.migrateFromOldVersion migStoreCex "OldPass1" "Abcd1234"
        (List.replicate 16 7) (List.replicate 12 8) cexIvs 200).2.accounts.map
        Account.password ≠
      migStoreCex.accounts.map Account.password := by
  refine ⟨rfl, rfl, ?_⟩
  decide

/-- Witness for C3 (amended) on `migStoreCex`: the undecryptable item
ends up stored as the new-key encryption of its original `"####"`. -/
theorem c3_failed_item_reencrypted_witness :
    migStoreCex.masterPassword = some "OldPass1" ∧
    ("OldPass1" : String) ≠ "" ∧
    SecurityManager.validatePasswordStrength "Abcd1234" = true ∧
    allBytes (List.replicate 16 7) ∧
    ((cexIvs 0).length = 12 ∧ allBytes (cexIvs 0)) ∧
    migStoreCex.accounts[0]? = some ⟨"user1", "####"⟩ ∧
    (Account.mk "user1" "####").password ≠ "" ∧
    CryptoUtils.decrypt "####" (.str "OldPass1") = none ∧
    (SecurityManager.migrateFromOldVersion migStoreCex "OldPass1" "Abcd1234"
        (List.replicate 16 7) (List.replicate 12 8) cexIvs 200).2.accounts[0]? =
      some ⟨"user1", SecurityManager.encrypt "####"
        (SecurityManager.deriveKey "Abcd1234" (List.replicate 16 7)) (cexIvs 0)⟩ :=
  ⟨rfl, by decide, by decide, by decide, ⟨by decide, by decide⟩, rfl, by decide, rfl,
    (c3_failed_item_reencrypted migStoreCex "OldPass1" "Abcd1234" (List.replicate 16 7)
      (List.replicate 12 8) cexIvs 200 0 ⟨"user1", "####"⟩ rfl (by decide) (by decide)
      (by decide) ⟨by decide, by decide⟩ rfl (by decide) rfl).2.1⟩

/-- C4: running the update flow (which backs up the old data) and then
migration with the correct old passphrase and a valid new passphrase,
on a store holding the legacy plaintext passphrase and at least one
legacy-encrypted secret, leaves a state where `masterPassword` is
absent, every stored account password satisfies `isCiphertext`, and the
timestamped `backup_v1_2_0` record holding the original pre-migration
data is present. -/
theorem c4_migration_end_state (st : LocalStore) (oldPw newPw : String)
    (initSalt markerIv : List Nat) (ivs : Nat → List Nat) (t1 t2 : Int)
    (hmp : st.masterPassword = some oldPw) (hne : oldPw ≠ "")
    (_hleg : ∃ a ∈ st.accounts, a.password ≠ "" ∧
      ∃ d, CryptoUtils.decrypt a.password (.str oldPw) = some d)
    (hstrong : SecurityManager.validatePasswordStrength newPw = true)
    (hsalt : allBytes initSalt)
    (hiv : ∀ j, (ivs j).length = 12 ∧ allBytes (ivs j)) :
    (SecurityManager.migrateFromOldVersion (handleUpdate st t1) oldPw newPw initSalt
      markerIv ivs t2).1 = MigrateResult.ok ∧
    (SecurityManager.migrateFromOldVersion (handleUpdate st t1) oldPw newPw initSalt
      markerIv ivs t2).2.masterPassword = none ∧
    (∀ a ∈ (SecurityManager.migrateFromOldVersion (handleUpdate st t1) oldPw newPw initSalt
      markerIv ivs t2).2.accounts, CryptoUtils.isBase64 a.password = true) ∧
    (SecurityManager.migrateFromOldVersion (handleUpdate st t1) oldPw newPw initSalt
      markerIv ivs t2).2.backupV120 =
      some ⟨t1, "1.2.0", st.environments, st.accounts, some oldPw⟩ := by
  have hupd : handleUpdate st t1 = { st with backupV120 := some ⟨t1, "1.2.0",
      st.environments, st.accounts, st.masterPassword⟩ } := by
    unfold handleUpdate checkNeedsMigration backupOldData
    rw [hmp, if_pos (jsTruthy_some oldPw hne)]
  have hst1mp : (handleUpdate st t1).masterPassword = some oldPw := by
    rw [hupd]
    exact hmp
  have hmig := migrate_ok (handleUpdate st t1) oldPw newPw initSalt markerIv ivs t2
    hst1mp hne hstrong hsalt
  rw [hmig]
  refine ⟨rfl, rfl, ?_, ?_⟩
  · intro a ha
    exact reEncryptAccounts_isBase64 _ ivs hiv _ 0 a ha
  · show (handleUpdate st t1).backupV120 = _
    rw [hupd, hmp]

/-- A genuinely legacy-encrypted stored password for the C4 witness. -/
def legacyBlobCex : String :=
  CryptoUtils.encrypt "hunter2" (.str "OldPass1") (List.replicate 16 1) (List.replicate 12 2)

/-- The pre-migration store of the C4 witness: the legacy plaintext
passphrase plus one secret encrypted under the legacy scheme. -/
def migStoreOk : LocalStore :=
  ⟨["env1"], [⟨"user1", legacyBlobCex⟩], some "OldPass1", none, none⟩

/-- Witness for C4 on `migStoreOk`. -/
theorem c4_migration_end_state_witness :
    migStoreOk.masterPassword = some "OldPass1" ∧
    ("OldPass1" : String) ≠ "" ∧
    (∃ a ∈ migStoreOk.accounts, a.password ≠ "" ∧
      ∃ d, CryptoUtils.decrypt a.password (.str "OldPass1") = some d) ∧
    SecurityManager.validatePasswordStrength "Abcd1234" = true ∧
    allBytes (List.replicate 16 7) ∧
    (∀ j, (cexIvs j).length = 12 ∧ allBytes (cexIvs j)) ∧
    (SecurityManager.migrateFromOldVersion (handleUpdate migStoreOk 100) "OldPass1"
      "Abcd1234" (List.replicate 16 7) (List.replicate 12 8) cexIvs 200).1 =
        MigrateResult.ok ∧
    (SecurityManager.migrateFromOldVersion (handleUpdate migStoreOk 100) "OldPass1"
      "Abcd1234" (List.replicate 16 7) (List.replicate 12 8) cexIvs 200).2.masterPassword =
        none ∧
    (SecurityManager.migrateFromOldVersion (handleUpdate migStoreOk 100) "OldPass1"
      "Abcd1234" (List.replicate 16 7) (List.replicate 12 8) cexIvs 200).2.backupV120 =
      some ⟨100, "1.2.0", ["env1"], [⟨"user1", legacyBlobCex⟩], some "OldPass1"⟩ :=
  ⟨rfl, by decide,
    ⟨⟨"user1", legacyBlobCex⟩, List.mem_cons_self _ _,
      by
        show legacyBlobCex ≠ ""
        decide,
      ⟨"hunter2", cu_decrypt_encrypt "hunter2" (.str "OldPass1") (List.replicate 16 1)
        (List.replicate 12 2) (by decide) (by decide) (by decide) (by decide)⟩⟩,
    by decide, by decide, cexIvs_ok,
    (c4_migration_end_state migStoreOk "OldPass1" "Abcd1234" (List.replicate 16 7)
      (List.replicate 12 8) cexIvs 100 200 rfl (by decide)
      ⟨⟨"user1", legacyBlobCex⟩, List.mem_cons_self _ _,
        by
          show legacyBlobCex ≠ ""
          decide,
        ⟨"hunter2", cu_decrypt_encrypt "hunter2" (.str "OldPass1") (List.replicate 16 1)
          (List.replicate 12 2) (by decide) (by decide) (by decide) (by decide)⟩⟩
      (by decide) (by decide) cexIvs_ok).1,
    (c4_migration_end_state migStoreOk "OldPass1" "Abcd1234" (List.replicate 16 7)
      (List.replicate 12 8) cexIvs 100 200 rfl (by decide)
      ⟨⟨"user1", legacyBlobCex⟩, List.mem_cons_self _ _,
        by
          show legacyBlobCex ≠ ""
          decide,
        ⟨"hunter2", cu_decrypt_encrypt "hunter2" (.str "OldPass1") (List.replicate 16 1)
          (List.replicate 12 2) (by decide) (by decide) (by decide) (by decide)⟩⟩
      (by decide) (by decide) cexIvs_ok).2.1,
    (c4_migration_end_state migStoreOk "OldPass1" "Abcd1234" (List.replicate 16 7)
      (List.replicate 12 8) cexIvs 100 200 rfl (by decide)
      ⟨⟨"user1", legacyBlobCex⟩, List.mem_cons_self _ _,
        by
          show legacyBlobCex ≠ ""
          decide,
        ⟨"hunter2", cu_decrypt_encrypt "hunter2" (.str "OldPass1") (List.replicate 16 1)
          (List.replicate 12 2) (by decide) (by decide) (by decide) (by decide)⟩⟩
      (by decide) (by decide) cexIvs_ok).2.2.2⟩
